import Mathlib

/-!
Verification of the pseudographics chunk-to-character encoder.

The development shallowly embeds `pseudographics.py`:
* `NDArray` models a NumPy integer array (shape plus row-major flat data);
* `Pseudographics` models the `_Pseudographics` class (palette `blocks`
  and `pixel_order`); `mkPseudographics` models its `__init__` including
  the shape handling of `np.array` and the palette-length assert;
* `bitmap_to_blocks` models `_Pseudographics.bitmap_to_blocks`
  (binarize, pad, reshape into chunks, `tensordot` against the
  `2 ** pixel_order` matrix, palette lookup), returning `none` where the
  Python code raises (failed `assert`, division by a zero chunk dimension,
  out-of-range palette index);
* `to_pseudographics` models the module-level function of the same name;
* `pseudographicsByBlockSet` reproduces the `_pseudographics_by_block_set`
  registry, with every glyph given by its exact Unicode code point.
-/

set_option maxRecDepth 100000

namespace PG

/-- Model of a NumPy `ndarray` over the integers: the shape together with the
row-major flat data. -/
structure NDArray where
  shape : List Nat
  data : List Int
deriving DecidableEq

/-- Height of a 2-dimensional array: `shape[0]`. -/
def NDArray.bh (a : NDArray) : Nat := a.shape.getD 0 0

/-- Width of a 2-dimensional array: `shape[1]`. -/
def NDArray.bw (a : NDArray) : Nat := a.shape.getD 1 0

/-- Well-formedness of the flat model: the data has exactly as many entries
as the shape prescribes. -/
def NDArray.WF (a : NDArray) : Prop := a.data.length = a.shape.prod

instance (a : NDArray) : Decidable a.WF := by
  unfold NDArray.WF; infer_instance

/-- Padded length used by `np.pad(bitmap, ((0, -bh % ch), (0, -bw % cw)))`:
`n` extended by `(-n) mod k`, i.e. the least multiple of `k` that is `≥ n`
(for `k ≠ 0`). -/
def padLen (n k : Nat) : Nat := n + (k - n % k) % k

/-- Model of the `_Pseudographics` class: the glyph palette `blocks` and the
bit-significance grid `pixel_order`. -/
structure Pseudographics where
  blocks : List String
  pixelOrder : List (List Nat)
deriving DecidableEq

/-- Chunk height: the number of rows of `pixel_order` (the `h` of
`self.matrix.shape`). -/
def Pseudographics.ch (p : Pseudographics) : Nat := p.pixelOrder.length

/-- Chunk width: the common row length of `pixel_order` (the `w` of
`self.matrix.shape`). -/
def Pseudographics.cw (p : Pseudographics) : Nat := (p.pixelOrder.headD []).length

/-- Bit-significance assigned to in-chunk position `(r, c)`:
`pixel_order[r][c]`. -/
def Pseudographics.bitAt (p : Pseudographics) (r c : Nat) : Nat :=
  (p.pixelOrder.getD r []).getD c 0

/-- Entry `(r, c)` of `self.matrix = 2 ** np.array(pixel_order)`. -/
def Pseudographics.matrixEntry (p : Pseudographics) (r c : Nat) : Nat :=
  2 ^ p.bitAt r c

/-- Model of `_Pseudographics.__init__`: `np.array(pixel_order)` requires a
rectangular, two-dimensional nested list (so a nonempty list of equal-length
rows), and the constructor then asserts
`len(blocks) == 2 ** (h * w)`.  `none` models a raised exception. -/
def mkPseudographics (blocks : List String) (pixelOrder : List (List Nat)) :
    Option Pseudographics :=
  if pixelOrder.length = 0 then none
  else if pixelOrder.all (fun row => row.length = (pixelOrder.headD []).length) then
    if blocks.length = 2 ^ (pixelOrder.length * (pixelOrder.headD []).length) then
      some ⟨blocks, pixelOrder⟩
    else none
  else none

/-- Binarized bitmap entry at `(y, x)` (row-major): `bitmap[y][x] != 0`. -/
def binPixel (a : NDArray) (y x : Nat) : Bool :=
  decide (a.data.getD (y * a.bw + x) 0 ≠ 0)

/-- Entry `(y, x)` of the binarized bitmap after padding with background
(`False`) at the bottom and right edges. -/
def paddedPixel (a : NDArray) (y x : Nat) : Bool :=
  if y < a.bh ∧ x < a.bw then binPixel a y x else false

/-- Number of chunk rows of the padded bitmap: `bh // ch` after padding. -/
def gridH (a : NDArray) (ch : Nat) : Nat := padLen a.bh ch / ch

/-- Number of chunk columns of the padded bitmap: `bw // cw` after padding. -/
def gridW (a : NDArray) (cw : Nat) : Nat := padLen a.bw cw / cw

/-- The padded, binarized bitmap as a row-major flat list, exactly as the
padded array is laid out in memory before the `reshape`. -/
def paddedFlat (a : NDArray) (ch cw : Nat) : List Bool :=
  (List.range (padLen a.bh ch * padLen a.bw cw)).map
    (fun t => paddedPixel a (t / padLen a.bw cw) (t % padLen a.bw cw))

/-- Element `(i, r, j, c)` of
`chunks = bitmap.reshape(bh // ch, ch, bw // cw, cw)`: `reshape` keeps the
row-major flat order, so multi-index `(i, r, j, c)` reads flat position
`((i*ch + r) * (bw // cw) + j) * cw + c`. -/
def chunkElem (a : NDArray) (ch cw i r j c : Nat) : Bool :=
  (paddedFlat a ch cw).getD (((i * ch + r) * gridW a cw + j) * cw + c) false

/-- Entry `(i, j)` of
`np.tensordot(chunks, self.matrix, axes=((1, 3), (0, 1)))`: the contraction
of chunk `(i, j)` with the `2 ** pixel_order` matrix, booleans counting
as `1`/`0`. -/
def blockIndexTD (p : Pseudographics) (a : NDArray) (i j : Nat) : Nat :=
  ∑ r ∈ Finset.range p.ch, ∑ c ∈ Finset.range p.cw,
    (if chunkElem a p.ch p.cw i r j c then 1 else 0) * p.matrixEntry r c

/-- Scalar reference packing of chunk `(i, j)`, written from the spec: sum of
`2 ^ BitOrder[r][c]` over the foreground pixel positions of the chunk. -/
def blockIndexRef (p : Pseudographics) (a : NDArray) (i j : Nat) : Nat :=
  ∑ r ∈ Finset.range p.ch, ∑ c ∈ Finset.range p.cw,
    if paddedPixel a (i * p.ch + r) (j * p.cw + c) then 2 ^ p.bitAt r c else 0

/-- Model of `_Pseudographics.bitmap_to_blocks`.  `none` models a raised
exception: the failed `assert bitmap.ndim == 2`, a `ZeroDivisionError` from a
zero chunk dimension, or an `IndexError` from `self.blocks[block_indices]`
when some packed index is out of the palette's range.  Otherwise the result
is the full glyph grid. -/
def bitmap_to_blocks (p : Pseudographics) (a : NDArray) :
    Option (List (List String)) :=
  if a.shape.length = 2 then
    if p.ch = 0 ∨ p.cw = 0 then none
    else if (List.range (gridH a p.ch)).all (fun i =>
        (List.range (gridW a p.cw)).all (fun j =>
          decide (blockIndexTD p a i j < p.blocks.length))) then
      some ((List.range (gridH a p.ch)).map (fun i =>
        (List.range (gridW a p.cw)).map (fun j =>
          p.blocks.getD (blockIndexTD p a i j) "")))
    else none
  else none

/-- Scalar reference encoder, written from the spec: identical to
`bitmap_to_blocks` except that each chunk's packed index is computed by the
scalar nested-loop definition `blockIndexRef`. -/
def bitmap_to_blocks_ref (p : Pseudographics) (a : NDArray) :
    Option (List (List String)) :=
  if a.shape.length = 2 then
    if p.ch = 0 ∨ p.cw = 0 then none
    else if (List.range (gridH a p.ch)).all (fun i =>
        (List.range (gridW a p.cw)).all (fun j =>
          decide (blockIndexRef p a i j < p.blocks.length))) then
      some ((List.range (gridH a p.ch)).map (fun i =>
        (List.range (gridW a p.cw)).map (fun j =>
          p.blocks.getD (blockIndexRef p a i j) "")))
    else none
  else none

/-- The rows of `pixel_order` really form a `ch × cw` rectangle (what
`np.array` guarantees once construction has succeeded). -/
def Pseudographics.rectangular (p : Pseudographics) : Prop :=
  p.pixelOrder ≠ [] ∧ ∀ row ∈ p.pixelOrder, row.length = p.cw

instance (p : Pseudographics) : Decidable p.rectangular := by
  unfold Pseudographics.rectangular; infer_instance

/-- The bit-order invariant of the spec's data model: the entries of
`pixel_order` are exactly `{0, …, ch*cw − 1}`, with no repeats. -/
def Pseudographics.validOrder (p : Pseudographics) : Prop :=
  p.pixelOrder.flatten.length = p.ch * p.cw ∧
    p.pixelOrder.flatten.Nodup ∧
    ∀ x ∈ p.pixelOrder.flatten, x < p.ch * p.cw

instance (p : Pseudographics) : Decidable p.validOrder := by
  unfold Pseudographics.validOrder; infer_instance

/-- Model of the `BlockSet` enum. -/
inductive BlockSet where
  | DOUBLE_BLOCKS
  | FULL_BLOCKS
  | BLOCKS_1X2
  | BLOCKS_2X2
  | BLOCKS_2X3
  | BLOCKS_2X4
  | BRAILLE_2X4
deriving DecidableEq, BEq, Fintype

/-- One-character string with the given Unicode code point. -/
def glyph (n : Nat) : String := String.mk [Char.ofNat n]

/-- Palette of `BlockSet.DOUBLE_BLOCKS`: `['  ', '██']`. -/
def doubleBlocksGlyphs : List String :=
  [glyph 0x20 ++ glyph 0x20, glyph 0x2588 ++ glyph 0x2588]

/-- Palette of `BlockSet.FULL_BLOCKS`: `[' ', '█']`. -/
def fullBlocksGlyphs : List String := [glyph 0x20, glyph 0x2588]

/-- Palette of `BlockSet.BLOCKS_1X2`: `[' ', '▀', '▄', '█']`. -/
def blocks1x2Glyphs : List String :=
  [glyph 0x20, glyph 0x2580, glyph 0x2584, glyph 0x2588]

/-- Code points of the 16 quarter-block glyphs of `BlockSet.BLOCKS_2X2`. -/
def blocks2x2Codes : List Nat := [
  0x20, 0x2598, 0x259D, 0x2580, 0x2596, 0x258C, 0x259E, 0x259B,
  0x2597, 0x259A, 0x2590, 0x259C, 0x2584, 0x2599, 0x259F, 0x2588]

/-- Palette of `BlockSet.BLOCKS_2X2`. -/
def blocks2x2Glyphs : List String := blocks2x2Codes.map glyph

/-- Code points of the 64 sextant glyphs of `BlockSet.BLOCKS_2X3`. -/
def blocks2x3Codes : List Nat := [
  0x20, 0x1FB00, 0x1FB01, 0x1FB02, 0x1FB03, 0x1FB04, 0x1FB05, 0x1FB06,
  0x1FB07, 0x1FB08, 0x1FB09, 0x1FB0A, 0x1FB0B, 0x1FB0C, 0x1FB0D, 0x1FB0E,
  0x1FB0F, 0x1FB10, 0x1FB11, 0x1FB12, 0x1FB13, 0x258C, 0x1FB14, 0x1FB15,
  0x1FB16, 0x1FB17, 0x1FB18, 0x1FB19, 0x1FB1A, 0x1FB1B, 0x1FB1C, 0x1FB1D,
  0x1FB1E, 0x1FB1F, 0x1FB20, 0x1FB21, 0x1FB22, 0x1FB23, 0x1FB24, 0x1FB25,
  0x1FB26, 0x1FB27, 0x2590, 0x1FB28, 0x1FB29, 0x1FB2A, 0x1FB2B, 0x1FB2C,
  0x1FB2D, 0x1FB2E, 0x1FB2F, 0x1FB30, 0x1FB31, 0x1FB32, 0x1FB33, 0x1FB34,
  0x1FB35, 0x1FB36, 0x1FB37, 0x1FB38, 0x1FB39, 0x1FB3A, 0x1FB3B, 0x2588]

/-- Palette of `BlockSet.BLOCKS_2X3`. -/
def blocks2x3Glyphs : List String := blocks2x3Codes.map glyph

/-- Palette of `BlockSet.BRAILLE_2X4`:
`[chr(i) for i in range(0x2800, 0x2900)]`. -/
def brailleGlyphs : List String :=
  (List.range 256).map (fun i => glyph (0x2800 + i))

/-- Code points of the 256 octant glyphs of `BlockSet.BLOCKS_2X4`. -/
def blocks2x4Codes : List Nat := [
  0x20, 0x1CEA8, 0x1CEAB, 0x1FB82, 0x1CD00, 0x2598, 0x1CD01, 0x1CD02,
  0x1CD03, 0x1CD04, 0x259D, 0x1CD05, 0x1CD06, 0x1CD07, 0x1CD08, 0x2580,
  0x1CD09, 0x1CD0A, 0x1CD0B, 0x1CD0C, 0x1FBE6, 0x1CD0D, 0x1CD0E, 0x1CD0F,
  0x1CD10, 0x1CD11, 0x1CD12, 0x1CD13, 0x1CD14, 0x1CD15, 0x1CD16, 0x1CD17,
  0x1CD18, 0x1CD19, 0x1CD1A, 0x1CD1B, 0x1CD1C, 0x1CD1D, 0x1CD1E, 0x1CD1F,
  0x1FBE7, 0x1CD20, 0x1CD21, 0x1CD22, 0x1CD23, 0x1CD24, 0x1CD25, 0x1CD26,
  0x1CD27, 0x1CD28, 0x1CD29, 0x1CD2A, 0x1CD2B, 0x1CD2C, 0x1CD2D, 0x1CD2E,
  0x1CD2F, 0x1CD30, 0x1CD31, 0x1CD32, 0x1CD33, 0x1CD34, 0x1CD35, 0x1FB85,
  0x1CEA3, 0x1CD36, 0x1CD37, 0x1CD38, 0x1CD39, 0x1CD3A, 0x1CD3B, 0x1CD3C,
  0x1CD3D, 0x1CD3E, 0x1CD3F, 0x1CD40, 0x1CD41, 0x1CD42, 0x1CD43, 0x1CD44,
  0x2596, 0x1CD45, 0x1CD46, 0x1CD47, 0x1CD48, 0x258C, 0x1CD49, 0x1CD4A,
  0x1CD4B, 0x1CD4C, 0x259E, 0x1CD4D, 0x1CD4E, 0x1CD4F, 0x1CD50, 0x259B,
  0x1CD51, 0x1CD52, 0x1CD53, 0x1CD54, 0x1CD55, 0x1CD56, 0x1CD57, 0x1CD58,
  0x1CD59, 0x1CD5A, 0x1CD5B, 0x1CD5C, 0x1CD5D, 0x1CD5E, 0x1CD5F, 0x1CD60,
  0x1CD61, 0x1CD62, 0x1CD63, 0x1CD64, 0x1CD65, 0x1CD66, 0x1CD67, 0x1CD68,
  0x1CD69, 0x1CD6A, 0x1CD6B, 0x1CD6C, 0x1CD6D, 0x1CD6E, 0x1CD6F, 0x1CD70,
  0x1CEA0, 0x1CD71, 0x1CD72, 0x1CD73, 0x1CD74, 0x1CD75, 0x1CD76, 0x1CD77,
  0x1CD78, 0x1CD79, 0x1CD7A, 0x1CD7B, 0x1CD7C, 0x1CD7D, 0x1CD7E, 0x1CD7F,
  0x1CD80, 0x1CD81, 0x1CD82, 0x1CD83, 0x1CD84, 0x1CD85, 0x1CD86, 0x1CD87,
  0x1CD88, 0x1CD89, 0x1CD8A, 0x1CD8B, 0x1CD8C, 0x1CD8D, 0x1CD8E, 0x1CD8F,
  0x2597, 0x1CD90, 0x1CD91, 0x1CD92, 0x1CD93, 0x259A, 0x1CD94, 0x1CD95,
  0x1CD96, 0x1CD97, 0x2590, 0x1CD98, 0x1CD99, 0x1CD9A, 0x1CD9B, 0x259C,
  0x1CD9C, 0x1CD9D, 0x1CD9E, 0x1CD9F, 0x1CDA0, 0x1CDA1, 0x1CDA2, 0x1CDA3,
  0x1CDA4, 0x1CDA5, 0x1CDA6, 0x1CDA7, 0x1CDA8, 0x1CDA9, 0x1CDAA, 0x1CDAB,
  0x2582, 0x1CDAC, 0x1CDAD, 0x1CDAE, 0x1CDAF, 0x1CDB0, 0x1CDB1, 0x1CDB2,
  0x1CDB3, 0x1CDB4, 0x1CDB5, 0x1CDB6, 0x1CDB7, 0x1CDB8, 0x1CDB9, 0x1CDBA,
  0x1CDBB, 0x1CDBC, 0x1CDBD, 0x1CDBE, 0x1CDBF, 0x1CDC0, 0x1CDC1, 0x1CDC2,
  0x1CDC3, 0x1CDC4, 0x1CDC5, 0x1CDC6, 0x1CDC7, 0x1CDC8, 0x1CDC9, 0x1CDCA,
  0x1CDCB, 0x1CDCC, 0x1CDCD, 0x1CDCE, 0x1CDCF, 0x1CDD0, 0x1CDD1, 0x1CDD2,
  0x1CDD3, 0x1CDD4, 0x1CDD5, 0x1CDD6, 0x1CDD7, 0x1CDD8, 0x1CDD9, 0x1CDDA,
  0x2584, 0x1CDDB, 0x1CDDC, 0x1CDDD, 0x1CDDE, 0x2599, 0x1CDDF, 0x1CDE0,
  0x1CDE1, 0x1CDE2, 0x259F, 0x1CDE3, 0x2586, 0x1CDE4, 0x1CDE5, 0x2588]

/-- Palette of `BlockSet.BLOCKS_2X4`. -/
def blocks2x4Glyphs : List String := blocks2x4Codes.map glyph

/-- Model of the `_pseudographics_by_block_set` dictionary, in source order:
each block set paired with its `_Pseudographics(blocks, pixel_order)`. -/
def pseudographicsByBlockSet : List (BlockSet × Pseudographics) := [
  (BlockSet.DOUBLE_BLOCKS, ⟨doubleBlocksGlyphs, [[0]]⟩),
  (BlockSet.FULL_BLOCKS, ⟨fullBlocksGlyphs, [[0]]⟩),
  (BlockSet.BLOCKS_1X2, ⟨blocks1x2Glyphs, [[0], [1]]⟩),
  (BlockSet.BLOCKS_2X2, ⟨blocks2x2Glyphs, [[0, 1], [2, 3]]⟩),
  (BlockSet.BLOCKS_2X3, ⟨blocks2x3Glyphs, [[0, 1], [2, 3], [4, 5]]⟩),
  (BlockSet.BLOCKS_2X4, ⟨blocks2x4Glyphs, [[0, 1], [2, 3], [4, 5], [6, 7]]⟩),
  (BlockSet.BRAILLE_2X4, ⟨brailleGlyphs, [[0, 3], [1, 4], [2, 5], [6, 7]]⟩)]

/-- Configuration registered for a block set (every block set is a key of the
dictionary, so the lookup never actually falls back to the default). -/
def cfgOf (bs : BlockSet) : Pseudographics :=
  (pseudographicsByBlockSet.lookup bs).getD ⟨[], []⟩

/-- Model of the module-level `to_pseudographics`: look the block set up in
the dictionary, run `bitmap_to_blocks`, and join each row of glyphs into one
text line with `''.join(row)`. -/
def to_pseudographics (a : NDArray) (bs : BlockSet) : Option (List String) :=
  match pseudographicsByBlockSet.lookup bs with
  | some p => (bitmap_to_blocks p a).map (fun g => g.map String.join)
  | none => none

/-! General lemmas about sums, `getD`, and the padded length. -/

theorem sum_range_getD {α : Type} (d : α) (f : α → Nat) (l : List α) :
    ∑ i ∈ Finset.range l.length, f (l.getD i d) = (l.map f).sum := by
  induction l with
  | cons a t ih =>
    rw [List.length_cons, Finset.sum_range_succ']
    simp only [List.getD_cons_succ, List.getD_cons_zero, List.map_cons,
      List.sum_cons]
    rw [ih]
    exact Nat.add_comm _ _
  | nil =>
    rw [List.length_nil, Finset.range_zero, Finset.sum_empty, List.map_nil,
      List.sum_nil]

theorem getD_map_range {β : Type} (N t : Nat) (f : Nat → β) (d : β) :
    ((List.range N).map f).getD t d = if t < N then f t else d := by
  by_cases h : t < N
  · rw [if_pos h, List.getD_eq_getElem?_getD, List.getElem?_map, List.getElem?_range h]
    rfl
  · rw [if_neg h, List.getD_eq_getElem?_getD, List.getElem?_eq_none]
    · rfl
    · simpa using Nat.le_of_not_lt h

theorem padLen_mod (n : Nat) {k : Nat} (hk : k ≠ 0) : padLen n k % k = 0 := by
  have hk0 : 0 < k := Nat.pos_of_ne_zero hk
  unfold padLen
  rcases Nat.eq_zero_or_pos (n % k) with h | h
  · rw [h, Nat.sub_zero, Nat.mod_self, Nat.add_zero, h]
  · have hlt : n % k < k := Nat.mod_lt n hk0
    have hsub : k - n % k < k := by omega
    rw [Nat.mod_eq_of_lt hsub, Nat.add_mod, Nat.mod_eq_of_lt hsub]
    have hsum : n % k + (k - n % k) = k := by omega
    rw [hsum, Nat.mod_self]

theorem padLen_dvd (n : Nat) {k : Nat} (hk : k ≠ 0) : k ∣ padLen n k :=
  Nat.dvd_of_mod_eq_zero (padLen_mod n hk)

theorem le_padLen (n k : Nat) : n ≤ padLen n k := Nat.le_add_right n _

theorem padLen_eq_of_dvd {n k : Nat} (h : k ∣ n) : padLen n k = n := by
  unfold padLen
  rw [Nat.mod_eq_zero_of_dvd h, Nat.sub_zero, Nat.mod_self, Nat.add_zero]

theorem padLen_div_ceil (n : Nat) {k : Nat} (hk : k ≠ 0) :
    padLen n k / k = (n + k - 1) / k := by
  have hk0 : 0 < k := Nat.pos_of_ne_zero hk
  have hmod : n % k < k := Nat.mod_lt n hk0
  have hn : k * (n / k) + n % k = n := Nat.div_add_mod n k
  rcases Nat.eq_zero_or_pos (n % k) with h | h
  · have hpad : padLen n k = n := by unfold padLen; rw [h]; simp
    have hrhs : n + k - 1 = k * (n / k) + (k - 1) := by omega
    rw [hpad, hrhs, Nat.mul_add_div hk0,
      Nat.div_eq_of_lt (show k - 1 < k by omega), Nat.add_zero]
  · have hsub : k - n % k < k := by omega
    have hpad : padLen n k = k * (n / k) + k := by
      unfold padLen; rw [Nat.mod_eq_of_lt hsub]; omega
    have hrhs : n + k - 1 = k * (n / k) + (n % k + (k - 1)) := by omega
    rw [hpad, hrhs, Nat.mul_add_div hk0, Nat.mul_add_div hk0]
    have h2 : (n % k + (k - 1)) / k = 1 := by
      apply Nat.div_eq_of_lt_le (by omega) (by omega)
    rw [h2, Nat.div_self hk0]

/-! Correspondence between the `reshape`/`tensordot` pipeline and direct
pixel addressing. -/

theorem chunkElem_eq (a : NDArray) (ch cw i r j c : Nat) (hcw : cw ≠ 0)
    (hc : c < cw) (hj : j < gridW a cw) :
    chunkElem a ch cw i r j c = paddedPixel a (i * ch + r) (j * cw + c) := by
  have hgw : gridW a cw * cw = padLen a.bw cw :=
    Nat.div_mul_cancel (padLen_dvd a.bw hcw)
  have hjc : j * cw + c < padLen a.bw cw := by
    have h1 : (j + 1) * cw ≤ gridW a cw * cw := Nat.mul_le_mul_right cw hj
    have h2 : j * cw + c < (j + 1) * cw := by rw [Nat.succ_mul]; omega
    omega
  have hBW0 : 0 < padLen a.bw cw := by omega
  have ht : ((i * ch + r) * gridW a cw + j) * cw + c
      = padLen a.bw cw * (i * ch + r) + (j * cw + c) := by
    rw [← hgw]; ring
  unfold chunkElem paddedFlat
  rw [ht, getD_map_range]
  by_cases hy : i * ch + r < padLen a.bh ch
  · have hlt : padLen a.bw cw * (i * ch + r) + (j * cw + c)
        < padLen a.bh ch * padLen a.bw cw := by
      have h3 : i * ch + r + 1 ≤ padLen a.bh ch := hy
      have h4 : padLen a.bw cw * (i * ch + r + 1)
          ≤ padLen a.bw cw * padLen a.bh ch := Nat.mul_le_mul_left _ h3
      rw [Nat.mul_succ] at h4
      rw [Nat.mul_comm (padLen a.bh ch)]
      omega
    rw [if_pos hlt, Nat.mul_add_div hBW0, Nat.mul_add_mod,
      Nat.div_eq_of_lt hjc, Nat.mod_eq_of_lt hjc, Nat.add_zero]
  · have hge : padLen a.bh ch * padLen a.bw cw
        ≤ padLen a.bw cw * (i * ch + r) + (j * cw + c) := by
      have h3 : padLen a.bh ch ≤ i * ch + r := Nat.le_of_not_lt hy
      have h4 : padLen a.bw cw * padLen a.bh ch
          ≤ padLen a.bw cw * (i * ch + r) := Nat.mul_le_mul_left _ h3
      rw [Nat.mul_comm (padLen a.bh ch)]
      omega
    rw [if_neg (Nat.not_lt.mpr hge)]
    have hbh : a.bh ≤ i * ch + r :=
      le_trans (le_padLen a.bh ch) (Nat.le_of_not_lt hy)
    unfold paddedPixel
    rw [if_neg (by omega)]

theorem blockIndexTD_eq_ref (p : Pseudographics) (a : NDArray) (i j : Nat)
    (hcw : p.cw ≠ 0) (hj : j < gridW a p.cw) :
    blockIndexTD p a i j = blockIndexRef p a i j := by
  unfold blockIndexTD blockIndexRef
  refine Finset.sum_congr rfl (fun r _ => Finset.sum_congr rfl (fun c hc => ?_))
  rw [chunkElem_eq a p.ch p.cw i r j c hcw (Finset.mem_range.mp hc) hj]
  unfold Pseudographics.matrixEntry
  by_cases h : paddedPixel a (i * p.ch + r) (j * p.cw + c) <;> simp [h]

/-! The packed index is bounded by the palette size whenever the bit order is
a bijection onto `{0, …, ch*cw − 1}`. -/

theorem double_sum_bitAt (p : Pseudographics) (hrect : p.rectangular)
    (f : Nat → Nat) :
    (∑ r ∈ Finset.range p.ch, ∑ c ∈ Finset.range p.cw, f (p.bitAt r c))
      = (p.pixelOrder.flatten.map f).sum := by
  have h1 : (∑ r ∈ Finset.range p.ch, ∑ c ∈ Finset.range p.cw, f (p.bitAt r c))
      = (p.pixelOrder.map
          (fun row => ∑ c ∈ Finset.range p.cw, f (row.getD c 0))).sum :=
    sum_range_getD [] (fun row => ∑ c ∈ Finset.range p.cw, f (row.getD c 0))
      p.pixelOrder
  have h2 : p.pixelOrder.map
        (fun row => ∑ c ∈ Finset.range p.cw, f (row.getD c 0))
      = p.pixelOrder.map (fun row => (row.map f).sum) := by
    apply List.map_congr_left
    intro row hrow
    rw [← hrect.2 row hrow]
    exact sum_range_getD 0 f row
  rw [h1, h2]
  have h3 : p.pixelOrder.map (fun row => (row.map f).sum)
      = (p.pixelOrder.map (List.map f)).map List.sum := by
    rw [List.map_map]; rfl
  rw [h3, ← List.sum_flatten, ← List.map_flatten]

theorem sum_two_pow (n : Nat) : ∑ i ∈ Finset.range n, 2 ^ i = 2 ^ n - 1 := by
  induction n with
  | zero => rfl
  | succ m ih =>
    rw [Finset.sum_range_succ, ih]
    have h1 : 1 ≤ 2 ^ m := Nat.one_le_two_pow
    have h2 : 2 ^ (m + 1) = 2 ^ m * 2 := pow_succ 2 m
    omega

theorem validOrder_toFinset (p : Pseudographics) (hvalid : p.validOrder) :
    p.pixelOrder.flatten.toFinset = Finset.range (p.ch * p.cw) := by
  apply Finset.eq_of_subset_of_card_le
  · intro x hx
    exact Finset.mem_range.mpr (hvalid.2.2 x (List.mem_toFinset.mp hx))
  · rw [Finset.card_range, List.toFinset_card_of_nodup hvalid.2.1, hvalid.1]

theorem sum_matrixEntry (p : Pseudographics) (hrect : p.rectangular)
    (hvalid : p.validOrder) :
    (∑ r ∈ Finset.range p.ch, ∑ c ∈ Finset.range p.cw, p.matrixEntry r c)
      = 2 ^ (p.ch * p.cw) - 1 :=
  calc (∑ r ∈ Finset.range p.ch, ∑ c ∈ Finset.range p.cw, p.matrixEntry r c)
      = (p.pixelOrder.flatten.map (fun e => 2 ^ e)).sum :=
        double_sum_bitAt p hrect (fun e => 2 ^ e)
    _ = p.pixelOrder.flatten.toFinset.sum (fun e => 2 ^ e) :=
        (List.sum_toFinset _ hvalid.2.1).symm
    _ = ∑ i ∈ Finset.range (p.ch * p.cw), 2 ^ i := by
        rw [validOrder_toFinset p hvalid]
    _ = 2 ^ (p.ch * p.cw) - 1 := sum_two_pow _

theorem blockIndexTD_le (p : Pseudographics) (a : NDArray) (i j : Nat) :
    blockIndexTD p a i j
      ≤ ∑ r ∈ Finset.range p.ch, ∑ c ∈ Finset.range p.cw, p.matrixEntry r c := by
  unfold blockIndexTD
  refine Finset.sum_le_sum (fun r _ => Finset.sum_le_sum (fun c _ => ?_))
  by_cases h : chunkElem a p.ch p.cw i r j c <;> simp [h]

theorem blockIndexTD_lt_pow (p : Pseudographics) (a : NDArray) (i j : Nat)
    (hrect : p.rectangular) (hvalid : p.validOrder) :
    blockIndexTD p a i j < 2 ^ (p.ch * p.cw) := by
  have h1 := blockIndexTD_le p a i j
  rw [sum_matrixEntry p hrect hvalid] at h1
  have h2 : 1 ≤ 2 ^ (p.ch * p.cw) := Nat.one_le_two_pow
  omega

theorem bitmap_to_blocks_eq_grid (p : Pseudographics) (a : NDArray)
    (h2 : a.shape.length = 2) (hch : p.ch ≠ 0) (hcw : p.cw ≠ 0)
    (hb : ∀ i j, blockIndexTD p a i j < p.blocks.length) :
    bitmap_to_blocks p a = some ((List.range (gridH a p.ch)).map (fun i =>
      (List.range (gridW a p.cw)).map (fun j =>
        p.blocks.getD (blockIndexTD p a i j) ""))) := by
  unfold bitmap_to_blocks
  rw [if_pos h2, if_neg (by simp [hch, hcw]), if_pos]
  simp only [List.all_eq_true, List.mem_range, decide_eq_true_eq]
  exact fun i _ j _ => hb i j

theorem all_congr {α : Type} (l : List α) (f g : α → Bool)
    (h : ∀ x ∈ l, f x = g x) : l.all f = l.all g := by
  induction l with
  | cons a t ih =>
    rw [List.all_cons, List.all_cons, h a (List.mem_cons_self a t),
      ih (fun x hx => h x (List.mem_cons_of_mem a hx))]
  | nil => rfl

/-! Claim theorems. -/

/-- C1: for every configuration and every 2D bitmap whose dimensions are
exact multiples of the chunk shape, the packed index the `tensordot`
implementation computes for each chunk equals the scalar nested-loop
reference sum of `2 ^ BitOrder[r][c]` over the chunk's foreground pixel
positions, and the vectorized implementation yields the same output grid as
the scalar reference encoder. -/
theorem C1_tensordot_matches_scalar (p : Pseudographics) (a : NDArray)
    (hcw : p.cw ≠ 0) (h2 : a.shape.length = 2)
    (hdh : p.ch ∣ a.bh) (hdw : p.cw ∣ a.bw) :
    (∀ i j, j < gridW a p.cw →
        blockIndexTD p a i j = blockIndexRef p a i j) ∧
      bitmap_to_blocks p a = bitmap_to_blocks_ref p a := by
  have hidx : ∀ i j, j < gridW a p.cw →
      blockIndexTD p a i j = blockIndexRef p a i j :=
    fun i j hj => blockIndexTD_eq_ref p a i j hcw hj
  refine ⟨hidx, ?_⟩
  unfold bitmap_to_blocks bitmap_to_blocks_ref
  rw [if_pos h2, if_pos h2]
  by_cases hzero : p.ch = 0 ∨ p.cw = 0
  · rw [if_pos hzero, if_pos hzero]
  rw [if_neg hzero, if_neg hzero]
  have hall : ((List.range (gridH a p.ch)).all fun i =>
      (List.range (gridW a p.cw)).all fun j =>
        decide (blockIndexTD p a i j < p.blocks.length))
      = ((List.range (gridH a p.ch)).all fun i =>
        (List.range (gridW a p.cw)).all fun j =>
          decide (blockIndexRef p a i j < p.blocks.length)) := by
    apply all_congr
    intro i _
    apply all_congr
    intro j hj
    rw [hidx i j (List.mem_range.mp hj)]
  have hgrid : ((List.range (gridH a p.ch)).map fun i =>
      (List.range (gridW a p.cw)).map fun j =>
        p.blocks.getD (blockIndexTD p a i j) "")
      = ((List.range (gridH a p.ch)).map fun i =>
        (List.range (gridW a p.cw)).map fun j =>
          p.blocks.getD (blockIndexRef p a i j) "") := by
    apply List.map_congr_left
    intro i _
    apply List.map_congr_left
    intro j hj
    rw [hidx i j (List.mem_range.mp hj)]
  rw [hall, hgrid]

/-- Witness for C1: the BLOCKS_1X2 configuration on a concrete 2×1 bitmap
whose dimensions are exact multiples of the 2×1 chunk shape. -/
theorem C1_witness :
    (∀ i j, j < gridW ⟨[2, 1], [1, 0]⟩ (cfgOf BlockSet.BLOCKS_1X2).cw →
        blockIndexTD (cfgOf BlockSet.BLOCKS_1X2) ⟨[2, 1], [1, 0]⟩ i j
          = blockIndexRef (cfgOf BlockSet.BLOCKS_1X2) ⟨[2, 1], [1, 0]⟩ i j) ∧
      bitmap_to_blocks (cfgOf BlockSet.BLOCKS_1X2) ⟨[2, 1], [1, 0]⟩
        = bitmap_to_blocks_ref (cfgOf BlockSet.BLOCKS_1X2) ⟨[2, 1], [1, 0]⟩ :=
  C1_tensordot_matches_scalar (cfgOf BlockSet.BLOCKS_1X2) ⟨[2, 1], [1, 0]⟩
    (by decide) (by decide) (by decide) (by decide)

/-- C2: for every configuration satisfying the construction and bit-order
invariants and every 2D bitmap of positive height and width, encoding
succeeds and returns a grid with exactly `⌈H/ch⌉` rows and `⌈W/cw⌉`
columns, every cell of which is an entry of the palette. -/
theorem C2_grid_shape (p : Pseudographics) (a : NDArray)
    (hrect : p.rectangular) (hvalid : p.validOrder)
    (hcw : p.cw ≠ 0) (hlen : p.blocks.length = 2 ^ (p.ch * p.cw))
    (hwf : a.WF) (h2 : a.shape.length = 2) (hh : 1 ≤ a.bh) (hw : 1 ≤ a.bw) :
    ∃ g, bitmap_to_blocks p a = some g ∧
      g.length = (a.bh + p.ch - 1) / p.ch ∧
      ∀ row ∈ g, row.length = (a.bw + p.cw - 1) / p.cw ∧
        ∀ cell ∈ row, cell ∈ p.blocks := by
  have hch : p.ch ≠ 0 := by
    intro hc
    exact hrect.1 (List.length_eq_zero.mp hc)
  have hb : ∀ i j, blockIndexTD p a i j < p.blocks.length := by
    intro i j
    rw [hlen]
    exact blockIndexTD_lt_pow p a i j hrect hvalid
  refine ⟨_, bitmap_to_blocks_eq_grid p a h2 hch hcw hb, ?_, ?_⟩
  · rw [List.length_map, List.length_range]
    exact padLen_div_ceil a.bh hch
  · intro row hrow
    rcases List.mem_map.mp hrow with ⟨i, hi, hrow'⟩
    subst hrow'
    constructor
    · rw [List.length_map, List.length_range]
      exact padLen_div_ceil a.bw hcw
    · intro cell hcell
      rcases List.mem_map.mp hcell with ⟨j, hj, hcell'⟩
      subst hcell'
      have hb' := hb i j
      rw [List.getD_eq_getElem?_getD, List.getElem?_eq_getElem hb',
        Option.getD_some]
      exact List.getElem_mem hb'

/-- Witness for C2: the FULL_BLOCKS configuration on a concrete 1×2
bitmap. -/
theorem C2_witness :
    ∃ g, bitmap_to_blocks (cfgOf BlockSet.FULL_BLOCKS) ⟨[1, 2], [1, 0]⟩
        = some g ∧
      g.length = (NDArray.bh ⟨[1, 2], [1, 0]⟩ + (cfgOf BlockSet.FULL_BLOCKS).ch - 1)
          / (cfgOf BlockSet.FULL_BLOCKS).ch ∧
      ∀ row ∈ g, row.length
          = (NDArray.bw ⟨[1, 2], [1, 0]⟩ + (cfgOf BlockSet.FULL_BLOCKS).cw - 1)
            / (cfgOf BlockSet.FULL_BLOCKS).cw ∧
        ∀ cell ∈ row, cell ∈ (cfgOf BlockSet.FULL_BLOCKS).blocks :=
  C2_grid_shape (cfgOf BlockSet.FULL_BLOCKS) ⟨[1, 2], [1, 0]⟩
    (by decide) (by decide) (by decide) (by decide) (by decide) (by decide)
    (by decide) (by decide)

/-- C3: padding is appended only at the bottom and right, so bitmap pixel
`(y, x)` influences only output cell `(y / ch, x / cw)`: two bitmaps of the
same shape whose binarized pixels agree everywhere except possibly at
`(y, x)` receive identical packed indices at every other cell.  Moreover,
encoding a 1×1 bitmap with value 1 under BLOCKS_2X4 produces exactly one
output character: the palette glyph at index `2 ^ BitOrder[0][0]`. -/
theorem C3_padding_maps_pixels (p : Pseudographics) (a b : NDArray)
    (y x : Nat) (hch : p.ch ≠ 0) (hcw : p.cw ≠ 0)
    (hsh : a.shape = b.shape)
    (hpix : ∀ u v, ¬(u = y ∧ v = x) → binPixel a u v = binPixel b u v) :
    (∀ I J, J < gridW a p.cw → ¬(I = y / p.ch ∧ J = x / p.cw) →
        blockIndexTD p a I J = blockIndexTD p b I J) ∧
      to_pseudographics ⟨[1, 1], [1]⟩ BlockSet.BLOCKS_2X4
        = some [(cfgOf BlockSet.BLOCKS_2X4).blocks.getD
            (2 ^ (cfgOf BlockSet.BLOCKS_2X4).bitAt 0 0) ""] := by
  constructor
  · intro I J hJ hIJ
    have hbw : a.bw = b.bw := by unfold NDArray.bw; rw [hsh]
    have hbh : a.bh = b.bh := by unfold NDArray.bh; rw [hsh]
    have hJ' : J < gridW b p.cw := by
      unfold gridW at hJ ⊢
      rw [← hbw]
      exact hJ
    unfold blockIndexTD
    refine Finset.sum_congr rfl fun r hr => Finset.sum_congr rfl fun c hc => ?_
    rw [chunkElem_eq a p.ch p.cw I r J c hcw (Finset.mem_range.mp hc) hJ,
      chunkElem_eq b p.ch p.cw I r J c hcw (Finset.mem_range.mp hc) hJ']
    have hpos : ¬(I * p.ch + r = y ∧ J * p.cw + c = x) := by
      rintro ⟨hy, hx⟩
      apply hIJ
      have hdy : (I * p.ch + r) / p.ch = I := by
        rw [Nat.mul_comm I p.ch, Nat.mul_add_div (Nat.pos_of_ne_zero hch),
          Nat.div_eq_of_lt (Finset.mem_range.mp hr), Nat.add_zero]
      have hdx : (J * p.cw + c) / p.cw = J := by
        rw [Nat.mul_comm J p.cw, Nat.mul_add_div (Nat.pos_of_ne_zero hcw),
          Nat.div_eq_of_lt (Finset.mem_range.mp hc), Nat.add_zero]
      rw [← hy, ← hx, hdy, hdx]
      exact ⟨rfl, rfl⟩
    unfold paddedPixel
    rw [hpix (I * p.ch + r) (J * p.cw + c) hpos, hbw, hbh]
  · decide

/-- Witness for C3: BLOCKS_1X2 on a concrete 2×1 bitmap compared with
itself. -/
theorem C3_witness :
    (∀ I J, J < gridW ⟨[2, 1], [1, 0]⟩ (cfgOf BlockSet.BLOCKS_1X2).cw →
        ¬(I = 0 / (cfgOf BlockSet.BLOCKS_1X2).ch ∧
          J = 0 / (cfgOf BlockSet.BLOCKS_1X2).cw) →
        blockIndexTD (cfgOf BlockSet.BLOCKS_1X2) ⟨[2, 1], [1, 0]⟩ I J
          = blockIndexTD (cfgOf BlockSet.BLOCKS_1X2) ⟨[2, 1], [1, 0]⟩ I J) ∧
      to_pseudographics ⟨[1, 1], [1]⟩ BlockSet.BLOCKS_2X4
        = some [(cfgOf BlockSet.BLOCKS_2X4).blocks.getD
            (2 ^ (cfgOf BlockSet.BLOCKS_2X4).bitAt 0 0) ""] :=
  C3_padding_maps_pixels (cfgOf BlockSet.BLOCKS_1X2) ⟨[2, 1], [1, 0]⟩
    ⟨[2, 1], [1, 0]⟩ 0 0 (by decide) (by decide) rfl (fun _ _ _ => rfl)

theorem binPixel_of_all_zero (a : NDArray) (hz : ∀ v ∈ a.data, v = 0)
    (y x : Nat) : binPixel a y x = false := by
  unfold binPixel
  simp only [decide_eq_false_iff_not, ne_eq, not_not]
  rcases Nat.lt_or_ge (y * a.bw + x) a.data.length with h | h
  · rw [List.getD_eq_getElem?_getD, List.getElem?_eq_getElem h, Option.getD_some]
    exact hz _ (List.getElem_mem h)
  · exact List.getD_eq_default _ _ h

theorem blockIndexTD_of_all_zero (p : Pseudographics) (a : NDArray)
    (hz : ∀ v ∈ a.data, v = 0) (i j : Nat) : blockIndexTD p a i j = 0 := by
  unfold blockIndexTD
  refine Finset.sum_eq_zero fun r _ => Finset.sum_eq_zero fun c _ => ?_
  have hce : chunkElem a p.ch p.cw i r j c = false := by
    unfold chunkElem paddedFlat
    rw [getD_map_range]
    split
    · unfold paddedPixel
      split
      · exact binPixel_of_all_zero a hz _ _
      · rfl
    · rfl
  rw [hce]
  simp

/-- C6: encoding an all-zero bitmap yields the palette's index-0 glyph in
every output cell, for every configuration. -/
theorem C6_all_zero_background (p : Pseudographics) (a : NDArray)
    (hch : p.ch ≠ 0) (hcw : p.cw ≠ 0) (hblocks : 0 < p.blocks.length)
    (h2 : a.shape.length = 2) (hh : 1 ≤ a.bh) (hw : 1 ≤ a.bw) (hwf : a.WF)
    (hz : ∀ v ∈ a.data, v = 0) :
    ∃ g, bitmap_to_blocks p a = some g ∧ g ≠ [] ∧
      ∀ row ∈ g, ∀ cell ∈ row, cell = p.blocks.getD 0 "" := by
  have hb : ∀ i j, blockIndexTD p a i j < p.blocks.length := by
    intro i j
    rw [blockIndexTD_of_all_zero p a hz]
    exact hblocks
  refine ⟨_, bitmap_to_blocks_eq_grid p a h2 hch hcw hb, ?_, ?_⟩
  · simp only [ne_eq, List.map_eq_nil_iff, List.range_eq_nil]
    rcases padLen_dvd a.bh hch with ⟨m, hm⟩
    have h1 : 1 ≤ padLen a.bh p.ch := le_trans hh (le_padLen _ _)
    have hm1 : m ≠ 0 := by
      rintro rfl
      rw [Nat.mul_zero] at hm
      omega
    unfold gridH
    rw [hm, Nat.mul_div_cancel_left _ (Nat.pos_of_ne_zero hch)]
    exact hm1
  · intro row hrow cell hcell
    rcases List.mem_map.mp hrow with ⟨i, _, rfl⟩
    rcases List.mem_map.mp hcell with ⟨j, _, rfl⟩
    rw [blockIndexTD_of_all_zero p a hz]

/-- Witness for C6: FULL_BLOCKS on a concrete all-zero 1×1 bitmap. -/
theorem C6_witness :
    ∃ g, bitmap_to_blocks (cfgOf BlockSet.FULL_BLOCKS) ⟨[1, 1], [0]⟩
        = some g ∧ g ≠ [] ∧
      ∀ row ∈ g, ∀ cell ∈ row,
        cell = (cfgOf BlockSet.FULL_BLOCKS).blocks.getD 0 "" :=
  C6_all_zero_background (cfgOf BlockSet.FULL_BLOCKS) ⟨[1, 1], [0]⟩
    (by decide) (by decide) (by decide) (by decide) (by decide) (by decide)
    (by decide) (by decide)

theorem data_length_eq (a : NDArray) (hwf : a.WF) (h2 : a.shape.length = 2) :
    a.data.length = a.bh * a.bw := by
  rcases List.length_eq_two.mp h2 with ⟨s0, s1, hs⟩
  unfold NDArray.WF at hwf
  unfold NDArray.bh NDArray.bw
  rw [hs] at hwf ⊢
  simpa using hwf

theorem binPixel_of_all_nonzero (a : NDArray) (hwf : a.WF)
    (h2 : a.shape.length = 2) (hnz : ∀ v ∈ a.data, v ≠ 0)
    (y x : Nat) (hy : y < a.bh) (hx : x < a.bw) : binPixel a y x = true := by
  have hlen : a.data.length = a.bh * a.bw := data_length_eq a hwf h2
  have hidx : y * a.bw + x < a.data.length := by
    rw [hlen]
    have h4 : (y + 1) * a.bw ≤ a.bh * a.bw := Nat.mul_le_mul_right _ hy
    rw [Nat.succ_mul] at h4
    omega
  unfold binPixel
  simp only [ne_eq, decide_eq_true_eq]
  rw [List.getD_eq_getElem?_getD, List.getElem?_eq_getElem hidx, Option.getD_some]
  exact hnz _ (List.getElem_mem hidx)

/-- C7: encoding an all-foreground bitmap whose dimensions are exact
multiples of the chunk shape yields the last palette entry (the full block)
in every output cell, for every configuration satisfying the construction
and bit-order invariants. -/
theorem C7_all_ones_full (p : Pseudographics) (a : NDArray)
    (hrect : p.rectangular) (hvalid : p.validOrder) (hcw : p.cw ≠ 0)
    (hlen : p.blocks.length = 2 ^ (p.ch * p.cw))
    (hwf : a.WF) (h2 : a.shape.length = 2) (hh : 1 ≤ a.bh) (hw : 1 ≤ a.bw)
    (hdh : p.ch ∣ a.bh) (hdw : p.cw ∣ a.bw)
    (hnz : ∀ v ∈ a.data, v ≠ 0) :
    ∃ g, bitmap_to_blocks p a = some g ∧
      ∀ row ∈ g, ∀ cell ∈ row,
        cell = p.blocks.getD (p.blocks.length - 1) "" := by
  have hch : p.ch ≠ 0 := fun hc => hrect.1 (List.length_eq_zero.mp hc)
  have hb : ∀ i j, blockIndexTD p a i j < p.blocks.length := by
    intro i j
    rw [hlen]
    exact blockIndexTD_lt_pow p a i j hrect hvalid
  refine ⟨_, bitmap_to_blocks_eq_grid p a h2 hch hcw hb, ?_⟩
  intro row hrow cell hcell
  rcases List.mem_map.mp hrow with ⟨i, hi, rfl⟩
  rcases List.mem_map.mp hcell with ⟨j, hj, rfl⟩
  rw [List.mem_range] at hi hj
  have hfull : blockIndexTD p a i j = 2 ^ (p.ch * p.cw) - 1 := by
    rw [blockIndexTD_eq_ref p a i j hcw hj]
    unfold blockIndexRef
    have hgh : gridH a p.ch = a.bh / p.ch := by
      unfold gridH
      rw [padLen_eq_of_dvd hdh]
    have hgw : gridW a p.cw = a.bw / p.cw := by
      unfold gridW
      rw [padLen_eq_of_dvd hdw]
    rw [hgh] at hi
    rw [hgw] at hj
    have hpix : ∀ r ∈ Finset.range p.ch, ∀ c ∈ Finset.range p.cw,
        paddedPixel a (i * p.ch + r) (j * p.cw + c) = true := by
      intro r hr c hc
      rw [Finset.mem_range] at hr hc
      have hyb : i * p.ch + r < a.bh := by
        have h5 : (i + 1) * p.ch ≤ (a.bh / p.ch) * p.ch :=
          Nat.mul_le_mul_right _ (by omega)
        rw [Nat.div_mul_cancel hdh] at h5
        rw [Nat.succ_mul] at h5
        omega
      have hxb : j * p.cw + c < a.bw := by
        have h5 : (j + 1) * p.cw ≤ (a.bw / p.cw) * p.cw :=
          Nat.mul_le_mul_right _ (by omega)
        rw [Nat.div_mul_cancel hdw] at h5
        rw [Nat.succ_mul] at h5
        omega
      unfold paddedPixel
      rw [if_pos ⟨hyb, hxb⟩]
      exact binPixel_of_all_nonzero a hwf h2 hnz _ _ hyb hxb
    calc (∑ r ∈ Finset.range p.ch, ∑ c ∈ Finset.range p.cw,
        if paddedPixel a (i * p.ch + r) (j * p.cw + c) then 2 ^ p.bitAt r c
        else 0)
        = ∑ r ∈ Finset.range p.ch, ∑ c ∈ Finset.range p.cw,
            p.matrixEntry r c := by
          refine Finset.sum_congr rfl fun r hr =>
            Finset.sum_congr rfl fun c hc => ?_
          rw [hpix r hr c hc]
          simp [Pseudographics.matrixEntry]
      _ = 2 ^ (p.ch * p.cw) - 1 := sum_matrixEntry p hrect hvalid
  rw [hfull, hlen]

/-- Witness for C7: FULL_BLOCKS on a concrete all-foreground 1×1 bitmap. -/
theorem C7_witness :
    ∃ g, bitmap_to_blocks (cfgOf BlockSet.FULL_BLOCKS) ⟨[1, 1], [5]⟩
        = some g ∧
      ∀ row ∈ g, ∀ cell ∈ row,
        cell = (cfgOf BlockSet.FULL_BLOCKS).blocks.getD
          ((cfgOf BlockSet.FULL_BLOCKS).blocks.length - 1) "" :=
  C7_all_ones_full (cfgOf BlockSet.FULL_BLOCKS) ⟨[1, 1], [5]⟩
    (by decide) (by decide) (by decide) (by decide) (by decide) (by decide)
    (by decide) (by decide) (by decide) (by decide) (by decide)

/-- C8: construction of an encoder from a palette and an `h × w` bit order
fails exactly when the palette length differs from `2 ^ (h*w)`; when the
length check passes, construction succeeds. -/
theorem C8_construction_check (blocks : List String) (po : List (List Nat))
    (h w : Nat) (hne : po ≠ []) (hpoh : po.length = h)
    (hpow : ∀ row ∈ po, row.length = w) :
    (mkPseudographics blocks po = none ↔ blocks.length ≠ 2 ^ (h * w)) ∧
      ((mkPseudographics blocks po).isSome ↔ blocks.length = 2 ^ (h * w)) := by
  have hhead : (po.headD []).length = w := by
    cases po with
    | nil => exact absurd rfl hne
    | cons r t => exact hpow r (by simp)
  have hlen0 : po.length ≠ 0 := fun hc => hne (List.length_eq_zero.mp hc)
  have hall : po.all (fun row =>
      decide (row.length = (po.headD []).length)) = true := by
    simp only [List.all_eq_true, decide_eq_true_eq]
    intro row hrow
    rw [hpow row hrow, hhead]
  unfold mkPseudographics
  rw [if_neg hlen0, if_pos hall]
  subst hpoh
  rw [hhead]
  by_cases hb : blocks.length = 2 ^ (po.length * w)
  · rw [if_pos hb]
    constructor <;> simp [hb]
  · rw [if_neg hb]
    constructor <;> simp [hb]

/-- Witness for C8: the FULL_BLOCKS palette against the 1×1 bit order
`[[0]]`. -/
theorem C8_witness :
    (mkPseudographics fullBlocksGlyphs [[0]] = none
        ↔ fullBlocksGlyphs.length ≠ 2 ^ (1 * 1)) ∧
      ((mkPseudographics fullBlocksGlyphs [[0]]).isSome
        ↔ fullBlocksGlyphs.length = 2 ^ (1 * 1)) :=
  C8_construction_check fullBlocksGlyphs [[0]] 1 1 (by decide) (by decide)
    (by decide)

/-- C9: on input that is not 2-dimensional, encoding fails before producing
any output; on genuine 2D input, for a configuration satisfying the
construction and bit-order invariants, it succeeds with a complete grid. -/
theorem C9_dimensionality (p : Pseudographics) (a : NDArray)
    (hrect : p.rectangular) (hvalid : p.validOrder) (hcw : p.cw ≠ 0)
    (hlen : p.blocks.length = 2 ^ (p.ch * p.cw)) :
    (a.shape.length ≠ 2 → bitmap_to_blocks p a = none) ∧
      (a.shape.length = 2 → (bitmap_to_blocks p a).isSome) := by
  constructor
  · intro hne
    unfold bitmap_to_blocks
    rw [if_neg hne]
  · intro h2
    have hch : p.ch ≠ 0 := fun hc => hrect.1 (List.length_eq_zero.mp hc)
    have hb : ∀ i j, blockIndexTD p a i j < p.blocks.length := by
      intro i j
      rw [hlen]
      exact blockIndexTD_lt_pow p a i j hrect hvalid
    rw [bitmap_to_blocks_eq_grid p a h2 hch hcw hb]
    rfl

/-- Witness for C9: a 1-dimensional input fails, a 2-dimensional input
succeeds (FULL_BLOCKS configuration). -/
theorem C9_witness :
    (bitmap_to_blocks (cfgOf BlockSet.FULL_BLOCKS) ⟨[3], [1, 1, 1]⟩ = none) ∧
      (bitmap_to_blocks (cfgOf BlockSet.FULL_BLOCKS) ⟨[1, 1], [1]⟩).isSome :=
  ⟨(C9_dimensionality (cfgOf BlockSet.FULL_BLOCKS) ⟨[3], [1, 1, 1]⟩
      (by decide) (by decide) (by decide) (by decide)).1 (by decide),
    (C9_dimensionality (cfgOf BlockSet.FULL_BLOCKS) ⟨[1, 1], [1]⟩
      (by decide) (by decide) (by decide) (by decide)).2 rfl⟩

/-- C10: each of the seven registered configurations has a bit order that is
a bijection onto `{0, …, ch*cw − 1}`, and consequently every packed chunk
index computed for any bitmap is strictly below the palette length, so the
final palette lookup is always in bounds. -/
theorem C10_bit_orders_bijective :
    ∀ bs : BlockSet, (cfgOf bs).validOrder ∧
      ∀ (a : NDArray) (i j : Nat),
        blockIndexTD (cfgOf bs) a i j < (cfgOf bs).blocks.length := by
  intro bs
  have hvalid : (cfgOf bs).validOrder := by cases bs <;> decide
  have hrect : (cfgOf bs).rectangular := by cases bs <;> decide
  have hlen : (cfgOf bs).blocks.length
      = 2 ^ ((cfgOf bs).ch * (cfgOf bs).cw) := by cases bs <;> decide
  refine ⟨hvalid, fun a i j => ?_⟩
  rw [hlen]
  exact blockIndexTD_lt_pow (cfgOf bs) a i j hrect hvalid

theorem length_foldl_append (l : List String) :
    ∀ acc : String, (l.foldl (fun s t => s ++ t) acc).length
      = acc.length + (l.map String.length).sum := by
  induction l with
  | cons s t ih =>
    intro acc
    rw [List.foldl_cons, List.map_cons, List.sum_cons, ih,
      String.length_append]
    omega
  | nil =>
    intro acc
    rw [List.foldl_nil, List.map_nil, List.sum_nil]
    omega

theorem join_length (l : List String) :
    (String.join l).length = (l.map String.length).sum := by
  rw [show String.join l = l.foldl (fun s t => s ++ t) "" from rfl,
    length_foldl_append]
  simp

theorem sum_map_length_const {α : Type} (l : List α) (f : α → String)
    (k : Nat) (h : ∀ g ∈ l.map f, g.length = k) :
    ((l.map f).map String.length).sum = l.length * k := by
  rw [List.map_map]
  have hmap : l.map (String.length ∘ f) = List.replicate l.length k := by
    rw [← List.map_const l k]
    apply List.map_congr_left
    intro g hg
    exact h (f g) (List.mem_map.mpr ⟨g, hg, rfl⟩)
  rw [hmap, List.sum_replicate, smul_eq_mul]

/-- Character width of every glyph in a block set's palette: 2 for
DOUBLE_BLOCKS, 1 for every other block set. -/
def glyphWidth (bs : BlockSet) : Nat :=
  if bs = BlockSet.DOUBLE_BLOCKS then 2 else 1

/-- C4 counterexample: under DOUBLE_BLOCKS a 1×1 bitmap renders as one line
of two characters, not `⌈W/cw⌉ = 1` single characters, refuting the claimed
line length for the DOUBLE_BLOCKS configuration. -/
theorem C4_counterexample :
    to_pseudographics ⟨[1, 1], [1]⟩ BlockSet.DOUBLE_BLOCKS
        = some [glyph 0x2588 ++ glyph 0x2588] ∧
      (glyph 0x2588 ++ glyph 0x2588).length = 2 ∧
      (NDArray.bw ⟨[1, 1], ([1] : List Int)⟩ + (cfgOf BlockSet.DOUBLE_BLOCKS).cw - 1)
          / (cfgOf BlockSet.DOUBLE_BLOCKS).cw = 1 := by
  decide

/-- C4 (amended): for every named configuration and every 2D bitmap, render
returns exactly `⌈H/ch⌉` lines, all of character length
`glyphWidth · ⌈W/cw⌉`, where `glyphWidth` is 1 for every configuration
except DOUBLE_BLOCKS, whose palette glyphs are two characters wide. -/
theorem C4_render_line_lengths (bs : BlockSet) (a : NDArray)
    (hwf : a.WF) (h2 : a.shape.length = 2) (hh : 1 ≤ a.bh) (hw : 1 ≤ a.bw) :
    ∃ lines, to_pseudographics a bs = some lines ∧
      lines.length = (a.bh + (cfgOf bs).ch - 1) / (cfgOf bs).ch ∧
      ∀ line ∈ lines, line.length
        = glyphWidth bs * ((a.bw + (cfgOf bs).cw - 1) / (cfgOf bs).cw) := by
  have hvalid : (cfgOf bs).validOrder := by cases bs <;> decide
  have hrect : (cfgOf bs).rectangular := by cases bs <;> decide
  have hcw : (cfgOf bs).cw ≠ 0 := by cases bs <;> decide
  have hch : (cfgOf bs).ch ≠ 0 := by cases bs <;> decide
  have hlen : (cfgOf bs).blocks.length
      = 2 ^ ((cfgOf bs).ch * (cfgOf bs).cw) := by cases bs <;> decide
  have hglyphs : ∀ s ∈ (cfgOf bs).blocks, s.length = glyphWidth bs := by
    cases bs <;> decide
  have hlookup : pseudographicsByBlockSet.lookup bs = some (cfgOf bs) := by
    cases bs <;> rfl
  have hb : ∀ i j, blockIndexTD (cfgOf bs) a i j < (cfgOf bs).blocks.length := by
    intro i j
    rw [hlen]
    exact blockIndexTD_lt_pow (cfgOf bs) a i j hrect hvalid
  have hgrid := bitmap_to_blocks_eq_grid (cfgOf bs) a h2 hch hcw hb
  refine ⟨((List.range (gridH a (cfgOf bs).ch)).map (fun i =>
      (List.range (gridW a (cfgOf bs).cw)).map (fun j =>
        (cfgOf bs).blocks.getD (blockIndexTD (cfgOf bs) a i j) ""))).map
      String.join, ?_, ?_, ?_⟩
  · unfold to_pseudographics
    rw [hlookup]
    show Option.map (fun g => List.map String.join g)
      (bitmap_to_blocks (cfgOf bs) a) = _
    rw [hgrid]
    rfl
  · rw [List.length_map, List.length_map, List.length_range]
    exact padLen_div_ceil a.bh hch
  · intro line hline
    rcases List.mem_map.mp hline with ⟨row, hrow, rfl⟩
    rcases List.mem_map.mp hrow with ⟨i, _, rfl⟩
    have hcell : ∀ g ∈ (List.range (gridW a (cfgOf bs).cw)).map (fun j =>
        (cfgOf bs).blocks.getD (blockIndexTD (cfgOf bs) a i j) ""),
        g.length = glyphWidth bs := by
      intro g hg
      rcases List.mem_map.mp hg with ⟨j, _, rfl⟩
      apply hglyphs
      have hb' := hb i j
      rw [List.getD_eq_getElem?_getD, List.getElem?_eq_getElem hb',
        Option.getD_some]
      exact List.getElem_mem hb'
    rw [join_length,
      sum_map_length_const (List.range (gridW a (cfgOf bs).cw)) _
        (glyphWidth bs) hcell,
      List.length_range]
    unfold gridW
    rw [padLen_div_ceil a.bw hcw, Nat.mul_comm]

/-- Witness for C4 (amended): DOUBLE_BLOCKS on a concrete 1×1 bitmap. -/
theorem C4_witness :
    ∃ lines, to_pseudographics ⟨[1, 1], [1]⟩ BlockSet.DOUBLE_BLOCKS
        = some lines ∧
      lines.length = (NDArray.bh ⟨[1, 1], ([1] : List Int)⟩
          + (cfgOf BlockSet.DOUBLE_BLOCKS).ch - 1)
          / (cfgOf BlockSet.DOUBLE_BLOCKS).ch ∧
      ∀ line ∈ lines, line.length = glyphWidth BlockSet.DOUBLE_BLOCKS
        * ((NDArray.bw ⟨[1, 1], ([1] : List Int)⟩
            + (cfgOf BlockSet.DOUBLE_BLOCKS).cw - 1)
          / (cfgOf BlockSet.DOUBLE_BLOCKS).cw) :=
  C4_render_line_lengths BlockSet.DOUBLE_BLOCKS ⟨[1, 1], [1]⟩
    (by decide) (by decide) (by decide) (by decide)

/-- C5 counterexample: the registry holds seven configurations, not six, and
the chunk shapes of BLOCKS_2X3 and BLOCKS_2X4 are (height × width) 3×2 and
4×2, not 2×3 and 2×4. -/
theorem C5_counterexample :
    pseudographicsByBlockSet.length = 7 ∧ (7 : Nat) ≠ 6 ∧
      (cfgOf BlockSet.BLOCKS_2X3).ch = 3 ∧ (cfgOf BlockSet.BLOCKS_2X3).cw = 2 ∧
      (cfgOf BlockSet.BLOCKS_2X4).ch = 4 ∧ (cfgOf BlockSet.BLOCKS_2X4).cw = 2 := by
  decide

/-- C5 (amended): the registry contains exactly seven configurations, keyed
in order by DOUBLE_BLOCKS, FULL_BLOCKS, BLOCKS_1X2, BLOCKS_2X2, BLOCKS_2X3,
BLOCKS_2X4 and BRAILLE_2X4, with chunk shapes (height × width) 1×1, 1×1
(with double-width glyphs), 2×1, 2×2, 3×2, 4×2 and 4×2 respectively, each
paired with a fixed palette of exactly `2^(ch·cw)` glyphs. -/
theorem C5_registry_contents :
    pseudographicsByBlockSet.map Prod.fst
        = [BlockSet.DOUBLE_BLOCKS, BlockSet.FULL_BLOCKS, BlockSet.BLOCKS_1X2,
          BlockSet.BLOCKS_2X2, BlockSet.BLOCKS_2X3, BlockSet.BLOCKS_2X4,
          BlockSet.BRAILLE_2X4] ∧
      pseudographicsByBlockSet.map (fun e => (e.2.ch, e.2.cw))
        = [(1, 1), (1, 1), (2, 1), (2, 2), (3, 2), (4, 2), (4, 2)] ∧
      (∀ e ∈ pseudographicsByBlockSet,
        e.2.blocks.length = 2 ^ (e.2.ch * e.2.cw)) ∧
      (∀ s ∈ (cfgOf BlockSet.DOUBLE_BLOCKS).blocks, s.length = 2) := by
  refine ⟨by decide, by decide, ?_, by decide⟩
  intro e he
  fin_cases he <;> decide

/-- Witness for C5 (amended): the palette-size property extracted at the
concrete FULL_BLOCKS registry entry. -/
theorem C5_witness :
    (cfgOf BlockSet.FULL_BLOCKS).blocks.length
      = 2 ^ ((cfgOf BlockSet.FULL_BLOCKS).ch * (cfgOf BlockSet.FULL_BLOCKS).cw) :=
  C5_registry_contents.2.2.1 (BlockSet.FULL_BLOCKS, cfgOf BlockSet.FULL_BLOCKS)
    (List.Mem.tail _ (List.Mem.head _))

end PG
